import Mathlib

/-!
Shallow embedding of `sync-icons.py`, an icon-synchronization utility that
copies SVG icon markup into an HTML document and a React component.
Text is modelled as `List Char`.  Python regular expressions appearing in the
source are each deterministic (their quantifiers admit a single parse at every
starting position), so every `re.search`/`re.sub` call is embedded as an
anchored matcher plus a leftmost scan over start positions, and `re.sub` of an
escaped literal is embedded as left-to-right non-overlapping literal
replacement.  Replacement templates used by the script contain no backslashes,
so template expansion is literal insertion.  Python's `str.strip` and the
regex class `\s` are modelled over the ASCII whitespace characters.
-/

set_option autoImplicit false

namespace SyncIcons

/-- ASCII whitespace, the characters Python's `str.strip()` and `\s` act on
in this script's inputs. -/
def isPySpace (c : Char) : Bool :=
  c == ' ' || c == '\t' || c == '\n' ||
    c == Char.ofNat 11 || c == Char.ofNat 12 || c == Char.ofNat 13

/-- The apostrophe character (written via its code point). -/
def aposChar : Char := Char.ofNat 39

/-- Right-trim: drop trailing characters satisfying `p`. -/
def rtrim (p : Char → Bool) (l : List Char) : List Char :=
  (l.reverse.dropWhile p).reverse

/-- Python `str.strip()`: drop leading and trailing whitespace. -/
def pyStrip (l : List Char) : List Char :=
  rtrim isPySpace (l.dropWhile isPySpace)

/-- Index of the first occurrence of `pat` in `t` (like `str.find`, and the
start of the leftmost match of an escaped-literal regex). -/
def findSub (pat : List Char) : List Char → Option Nat
  | [] => if List.isPrefixOf pat ([] : List Char) then some 0 else none
  | c :: rest =>
      if List.isPrefixOf pat (c :: rest) then some 0
      else (findSub pat rest).map (fun n => n + 1)

/-- Whether `pat` occurs as a contiguous substring of `t`. -/
def occursB (pat t : List Char) : Bool := (findSub pat t).isSome

/-- Leftmost-match scan: try the anchored matcher `f` at every start
position, left to right, exactly as `re.search` does. -/
def scanFirst {α : Type} (f : List Char → Option α) : List Char → Option (Nat × α)
  | [] => (f []).map (fun a => (0, a))
  | c :: rest =>
      match f (c :: rest) with
      | some a => some (0, a)
      | none => (scanFirst f rest).map (fun p => (p.1 + 1, p.2))

/-- Left-to-right non-overlapping replacement of the literal `pat` by `repl`,
with enough fuel; `re.sub(re.escape(pat), repl, t)` for nonempty `pat`. -/
def replaceAllAux (pat repl : List Char) : Nat → List Char → List Char
  | _, [] => []
  | 0, t => t
  | fuel + 1, c :: rest =>
      if !pat.isEmpty && List.isPrefixOf pat (c :: rest) then
        repl ++ replaceAllAux pat repl fuel (List.drop pat.length (c :: rest))
      else
        c :: replaceAllAux pat repl fuel rest

/-- Replace every (left-to-right, non-overlapping) occurrence of `pat`. -/
def replaceAll (pat repl t : List Char) : List Char :=
  replaceAllAux pat repl t.length t

/-- The segments of `t` lying between the left-to-right non-overlapping
occurrences of `pat`; same scan as `replaceAll`. -/
def splitOnPatAux (pat : List Char) : Nat → List Char → List (List Char)
  | _, [] => [[]]
  | 0, t => [t]
  | fuel + 1, c :: rest =>
      if !pat.isEmpty && List.isPrefixOf pat (c :: rest) then
        [] :: splitOnPatAux pat fuel (List.drop pat.length (c :: rest))
      else
        match splitOnPatAux pat fuel rest with
        | [] => [[c]]
        | s :: ss => (c :: s) :: ss

/-- Segments of `t` between occurrences of `pat`. -/
def splitOnPat (pat t : List Char) : List (List Char) :=
  splitOnPatAux pat t.length t

/-- Join a list of pieces with separator `sep` (Python `sep.join`). -/
def joinSep (sep : List Char) : List (List Char) → List Char
  | [] => []
  | [x] => x
  | x :: y :: rest => x ++ sep ++ joinSep sep (y :: rest)

/-- Split on the newline character (Python `content.split(chr(10))`). -/
def splitNl : List Char → List (List Char)
  | [] => [[]]
  | c :: rest =>
      if c == '\n' then [] :: splitNl rest
      else
        match splitNl rest with
        | [] => [[c]]
        | s :: ss => (c :: s) :: ss

-- ===========================================================================
-- Literal pieces of the regular expressions and replacement strings
-- ===========================================================================

/-- The literal `<svg` opening the wrapper-tag pattern. -/
def svgLit : List Char := ("<svg").data

/-- The literal `</svg>` closing wrapper tag. -/
def closeSvgLit : List Char := ("</svg>").data

/-- The fixed opening-tag prefix of the locator pattern. -/
def svgOpenLit : List Char := ("<svg width=\"16\" height=\"16\"").data

/-- The mask sub-element literal `<mask id="X"` of the locator pattern. -/
def maskOpenLit (maskId : List Char) : List Char :=
  ("<mask id=\"").data ++ maskId ++ ("\"").data

/-- A double-quoted id definition `id="x"`. -/
def dqId (x : List Char) : List Char := ("id=\"").data ++ x ++ ("\"").data

/-- A single-quoted id definition `id='x'`. -/
def sqId (x : List Char) : List Char :=
  ("id=").data ++ [aposChar] ++ x ++ [aposChar]

/-- A mask url reference `url(#x)`. -/
def urlRefId (x : List Char) : List Char := ("url(#").data ++ x ++ (")").data

/-- The literal `id="` opening the mask-id detection pattern. -/
def idDqLit : List Char := ("id=\"").data

/-- The literal `mask` marker that a detected mask id must begin with. -/
def maskMarkLit : List Char := ("mask").data

/-- The double-quote character as a one-character pattern. -/
def dqLit : List Char := ("\"").data

/-- The exact HTML style attribute rewritten for JSX. -/
def styleHtmlPat : List Char := ("style=\"mask-type:alpha\"").data

/-- The JSX object-notation style replacement. -/
def styleJsxRepl : List Char :=
  ("style=\x7b\x7bmaskType: \x27alpha\x27\x7d\x7d").data

/-- Pattern `stroke-width="`. -/
def swPat : List Char := ("stroke-width=\"").data

/-- Replacement `strokeWidth="`. -/
def swRepl : List Char := ("strokeWidth=\"").data

/-- Pattern `stroke-linecap="`. -/
def slcPat : List Char := ("stroke-linecap=\"").data

/-- Replacement `strokeLinecap="`. -/
def slcRepl : List Char := ("strokeLinecap=\"").data

/-- Pattern `stroke-linejoin="`. -/
def sljPat : List Char := ("stroke-linejoin=\"").data

/-- Replacement `strokeLinejoin="`. -/
def sljRepl : List Char := ("strokeLinejoin=\"").data

/-- The `-react` suffix marking identifiers that target the React file. -/
def reactSuffix : List Char := ("-react").data

/-- HTML indentation width from the configuration block. -/
def HTML_INDENT : Nat := 24

/-- React indentation width from the configuration block. -/
def REACT_INDENT : Nat := 14

-- ===========================================================================
-- SVG content processing (source: extract_svg_inner_content, update_mask_id,
-- apply_indentation, convert_to_jsx_attributes)
-- ===========================================================================

/-- Anchored matcher for `<svg[^>]*>(.*?)</svg>` (DOTALL) at the start of
`t`: `[^>]*>` matches up to the first `>`, `(.*?)</svg>` up to the first
`</svg>`.  Returns (length of the opening tag, length of group 1). -/
def matchSvgLen (t : List Char) : Option (Nat × Nat) :=
  if List.isPrefixOf svgLit t then
    match findSub ('>' :: []) (t.drop svgLit.length) with
    | none => none
    | some i =>
        let openLen := svgLit.length + i + 1
        match findSub closeSvgLit (t.drop openLen) with
        | none => none
        | some k => some (openLen, k)
  else none

/-- `extract_svg_inner_content`: on a match of the wrapper pattern return the
stripped group 1, otherwise the stripped whole input. -/
def extract_svg_inner_content (svg : List Char) : List Char :=
  match scanFirst matchSvgLen svg with
  | some (i, p, n) => pyStrip ((svg.drop (i + p)).take n)
  | none => pyStrip svg

/-- `update_mask_id`: three sequential literal substitutions — double-quoted
definition, single-quoted definition (normalized to double quotes), and
`url(#...)` reference. -/
def update_mask_id (content old_mask_id new_mask_id : List Char) : List Char :=
  replaceAll (urlRefId old_mask_id) (urlRefId new_mask_id)
    (replaceAll (sqId old_mask_id) (dqId new_mask_id)
      (replaceAll (dqId old_mask_id) (dqId new_mask_id) content))

/-- `apply_indentation`: split on newlines, strip each line, drop blank
lines, prefix `indent_level` spaces, join with newlines. -/
def apply_indent (content : List Char) (indent_level : Nat) : List Char :=
  joinSep ('\n' :: [])
    ((((splitNl content).map pyStrip).filter (fun l => !l.isEmpty)).map
      (fun l => List.replicate indent_level ' ' ++ l))

/-- Blank-line-freeness of a text: every line strips to something
nonempty (used to state the spec's idempotence property). -/
def noBlankLines (t : List Char) : Bool :=
  (splitNl t).all (fun l => !(pyStrip l).isEmpty)

/-- The text with its blank (whitespace-only) lines removed, used to state
the spec's blank-line-removal property. -/
def removeBlankLines (t : List Char) : List Char :=
  joinSep ('\n' :: []) ((splitNl t).filter (fun l => !(pyStrip l).isEmpty))

/-- `convert_to_jsx_attributes`: the style attribute, then the three
hyphenated stroke attributes, each a literal substitution. -/
def convert_to_jsx_attributes (content : List Char) : List Char :=
  replaceAll sljPat sljRepl
    (replaceAll slcPat slcRepl
      (replaceAll swPat swRepl
        (replaceAll styleHtmlPat styleJsxRepl content)))

/-- Anchored matcher for the mask-id detection pattern `id="(mask[^"]*)"`:
literal `id="`, literal `mask`, then greedily up to the first `"`.
Returns the captured group. -/
def matchDetect (t : List Char) : Option (List Char) :=
  if List.isPrefixOf idDqLit t then
    let t1 := t.drop idDqLit.length
    if List.isPrefixOf maskMarkLit t1 then
      match findSub dqLit (t1.drop maskMarkLit.length) with
      | none => none
      | some k => some (maskMarkLit ++ (t1.drop maskMarkLit.length).take k)
    else none
  else none

/-- `re.search(r'id="(mask[^"]*)"', content)`, returning group 1. -/
def detectMaskId (content : List Char) : Option (List Char) :=
  (scanFirst matchDetect content).map (fun p => p.2)

-- ===========================================================================
-- Icon preparation (source: prepare_icon_for_html, prepare_icon_for_react)
-- ===========================================================================

/-- `prepare_icon_for_html`: extract inner content, rewrite the detected
mask id if any, indent for HTML. -/
def prepare_icon_for_html (svg_content mask_id : List Char) : List Char :=
  let inner := extract_svg_inner_content svg_content
  let inner2 :=
    match detectMaskId inner with
    | some old => update_mask_id inner old mask_id
    | none => inner
  apply_indent inner2 HTML_INDENT

/-- `prepare_icon_for_react`: like the HTML preparation, plus the JSX
attribute conversion, indented for React. -/
def prepare_icon_for_react (svg_content mask_id : List Char) : List Char :=
  let inner := extract_svg_inner_content svg_content
  let inner2 :=
    match detectMaskId inner with
    | some old => update_mask_id inner old mask_id
    | none => inner
  apply_indent (convert_to_jsx_attributes inner2) REACT_INDENT

/-- The shared extraction/mask-rewriting stage of both preparation
functions, before any dialect adaptation or indentation. -/
def prepared_core (svg_content mask_id : List Char) : List Char :=
  let inner := extract_svg_inner_content svg_content
  match detectMaskId inner with
  | some old => update_mask_id inner old mask_id
  | none => inner

-- ===========================================================================
-- Icon replacement (source: find_and_replace_icon, replace_html_icon,
-- replace_react_icon)
-- ===========================================================================

/-- Anchored matcher for the locator pattern
`(<svg width="16" height="16"[^>]*>)\s*<mask id="X".*?</svg>` (DOTALL) at
the start of `t`: the fixed opening literal, `[^>]*>` up to the first `>`,
the maximal whitespace run, the literal `<mask id="X"`, then non-greedily up
to the first `</svg>`.  Returns the length of the whole match. -/
def matchLocatorLen (maskId t : List Char) : Option Nat :=
  if List.isPrefixOf svgOpenLit t then
    match findSub ('>' :: []) (t.drop svgOpenLit.length) with
    | none => none
    | some i =>
        let afterGt := svgOpenLit.length + i + 1
        let ws := ((t.drop afterGt).takeWhile isPySpace).length
        let afterWs := afterGt + ws
        if List.isPrefixOf (maskOpenLit maskId) (t.drop afterWs) then
          let afterMask := afterWs + (maskOpenLit maskId).length
          match findSub closeSvgLit (t.drop afterMask) with
          | none => none
          | some k => some (afterMask + k + closeSvgLit.length)
        else none
  else none

/-- `re.search` of the locator pattern: leftmost start and match length. -/
def searchLocator (maskId t : List Char) : Option (Nat × Nat) :=
  scanFirst (matchLocatorLen maskId) t

/-- The freshly constructed replacement block: fixed wrapper, the prepared
fragment, and the closing tag at the given indent. -/
def newSvgBlock (new_icon_content closing_tag_indent : List Char) : List Char :=
  ("<svg width=\"16\" height=\"16\" viewBox=\"0 0 16 16\" fill=\"none\" xmlns=\"http://www.w3.org/2000/svg\">").data
    ++ ('\n' :: []) ++ new_icon_content ++ ('\n' :: [])
    ++ closing_tag_indent ++ ("</svg>").data

/-- `find_and_replace_icon`: replace the first locator match (count=1) by
the fresh block; on no match return the content unchanged with `false`. -/
def find_and_replace_icon (content maskId new_icon_content closing_tag_indent :
    List Char) : List Char × Bool :=
  match searchLocator maskId content with
  | none => (content, false)
  | some (s, l) =>
      (content.take s ++ newSvgBlock new_icon_content closing_tag_indent ++
        content.drop (s + l), true)

/-- `replace_html_icon`: closing tag indented by 20 spaces. -/
def replace_html_icon (html_content maskId new_icon_content : List Char) :
    List Char × Bool :=
  find_and_replace_icon html_content maskId new_icon_content
    (List.replicate 20 ' ')

/-- `replace_react_icon`: closing tag indented by 10 spaces. -/
def replace_react_icon (react_content maskId new_icon_content : List Char) :
    List Char × Bool :=
  find_and_replace_icon react_content maskId new_icon_content
    (List.replicate 10 ' ')

-- ===========================================================================
-- Main synchronization logic (source: validate_environment, process_icon,
-- sync_icons); file existence and I/O are modelled as booleans and a trace
-- ===========================================================================

/-- Which of the three required paths exist on disk. -/
structure Env where
  iconsDirExists : Bool
  htmlExists : Bool
  reactExists : Bool

/-- `validate_environment`: all three required paths must exist. -/
def validate_environment (e : Env) : Bool :=
  e.iconsDirExists && e.htmlExists && e.reactExists

/-- Whether a mask id targets the React file (`mask_id.endswith('-react')`). -/
def endsReact (mask_id : List Char) : Bool :=
  List.isSuffixOf reactSuffix mask_id

/-- The per-identifier loop body of `process_icon`, threading the two
document buffers and accumulating the changed flags. -/
def processMasks (svg : List Char) :
    List (List Char) → List Char → List Char → Bool → Bool →
      List Char × List Char × Bool × Bool
  | [], html, react, hc, rc => (html, react, hc, rc)
  | m :: rest, html, react, hc, rc =>
      if endsReact m then
        match replace_react_icon react m (prepare_icon_for_react svg m) with
        | (react2, replaced) =>
            processMasks svg rest html react2 hc (rc || replaced)
      else
        match replace_html_icon html m (prepare_icon_for_html svg m) with
        | (html2, replaced) =>
            processMasks svg rest html2 react (hc || replaced) rc

/-- `process_icon`: a missing icon file is skipped with no changes;
otherwise each of its mask ids is processed in order. -/
def process_icon (present : Bool) (svg : List Char)
    (mask_ids : List (List Char)) (html react : List Char) :
    List Char × List Char × Bool × Bool :=
  if present then processMasks svg mask_ids html react false false
  else (html, react, false, false)

/-- One icon job: whether its file exists, its file content, and its
configured mask ids (one entry of ICON_MAPPINGS plus the file system). -/
def IconJob : Type := Bool × List Char × List (List Char)

/-- The icon loop of `sync_icons`, threading documents and or-ing flags. -/
def runJobs : List IconJob → List Char → List Char →
    List Char × List Char × Bool × Bool
  | [], html, react => (html, react, false, false)
  | (present, svg, ids) :: rest, html, react =>
      match process_icon present svg ids html react with
      | (h1, r1, hc, rc) =>
          match runJobs rest h1 r1 with
          | (h2, r2, hc2, rc2) => (h2, r2, hc || hc2, rc || rc2)

/-- The per-identifier outcomes printed by `process_icon`:
(targets React?, was replaced), in processing order. -/
def masksTrace (svg : List Char) :
    List (List Char) → List Char → List Char → List (Bool × Bool)
  | [], _, _ => []
  | m :: rest, html, react =>
      if endsReact m then
        match replace_react_icon react m (prepare_icon_for_react svg m) with
        | (react2, replaced) =>
            (true, replaced) :: masksTrace svg rest html react2
      else
        match replace_html_icon html m (prepare_icon_for_html svg m) with
        | (html2, replaced) =>
            (false, replaced) :: masksTrace svg rest html2 react

/-- The per-identifier outcomes over the whole run. -/
def jobsTrace : List IconJob → List Char → List Char → List (Bool × Bool)
  | [], _, _ => []
  | (present, svg, ids) :: rest, html, react =>
      if present then
        match process_icon present svg ids html react with
        | (h1, r1, _, _) =>
            masksTrace svg ids html react ++ jobsTrace rest h1 r1
      else jobsTrace rest html react

/-- File-system operations performed by a run, in order. -/
inductive FileOp where
  | readDocs
  | readIcon
  | writeHtmlDoc
  | writeReactDoc
deriving DecidableEq

/-- `sync_icons`: validate, read the two documents, process every icon,
write each document back exactly when its changed flag is set.  Returns
(overall success, written HTML, written React, file operations). -/
def sync_icons (e : Env) (jobs : List IconJob) (html react : List Char) :
    Bool × Option (List Char) × Option (List Char) × List FileOp :=
  if validate_environment e then
    match runJobs jobs html react with
    | (h, r, hu, ru) =>
        (hu || ru,
         if hu then some h else none,
         if ru then some r else none,
         FileOp.readDocs ::
           ((jobs.filter (fun j => j.1)).map (fun _ => FileOp.readIcon) ++
             (if hu then [FileOp.writeHtmlDoc] else []) ++
             (if ru then [FileOp.writeReactDoc] else [])))
  else (false, none, none, [])

-- ===========================================================================
-- Lemmas: substring search
-- ===========================================================================

/-- A successful `findSub` points at an occurrence. -/
theorem findSub_some_isPrefixOf {pat : List Char} :
    ∀ {t : List Char} {n : Nat}, findSub pat t = some n →
      List.isPrefixOf pat (t.drop n) = true := by
  intro t
  induction t with
  | nil =>
      intro n h
      simp only [findSub] at h
      split at h
      · cases h
        simpa using ‹List.isPrefixOf pat [] = true›
      · cases h
  | cons c rest ih =>
      intro n h
      simp only [findSub] at h
      split at h
      next hpre =>
        cases h
        simpa using hpre
      next hpre =>
        cases hm : findSub pat rest with
        | none => rw [hm] at h; cases h
        | some m =>
            rw [hm] at h
            simp only [Option.map_some'] at h
            cases h
            simpa [List.drop_succ_cons] using ih hm

/-- `findSub` returns the first occurrence: nothing earlier matches. -/
theorem findSub_some_min {pat : List Char} :
    ∀ {t : List Char} {n : Nat}, findSub pat t = some n →
      ∀ m, m < n → List.isPrefixOf pat (t.drop m) = false := by
  intro t
  induction t with
  | nil =>
      intro n h m hm
      simp only [findSub] at h
      split at h
      · cases h; omega
      · cases h
  | cons c rest ih =>
      intro n h m hm
      simp only [findSub] at h
      split at h
      next hpre => cases h; omega
      next hpre =>
        cases hfs : findSub pat rest with
        | none => rw [hfs] at h; cases h
        | some k =>
            rw [hfs] at h
            simp only [Option.map_some'] at h
            cases h
            cases m with
            | zero =>
                simpa using Bool.eq_false_iff.mpr hpre
            | succ m' =>
                have : m' < k := by omega
                simpa [List.drop_succ_cons] using ih hfs m' this

/-- A failing `findSub` means no occurrence at any start position. -/
theorem findSub_none {pat : List Char} :
    ∀ {t : List Char}, findSub pat t = none →
      ∀ m, List.isPrefixOf pat (t.drop m) = false := by
  intro t
  induction t with
  | nil =>
      intro h m
      simp only [findSub] at h
      split at h
      · cases h
      · simpa [List.drop_nil] using Bool.eq_false_iff.mpr ‹_›
  | cons c rest ih =>
      intro h m
      simp only [findSub] at h
      split at h
      next hpre => cases h
      next hpre =>
        cases hfs : findSub pat rest with
        | none =>
            cases m with
            | zero => simpa using Bool.eq_false_iff.mpr hpre
            | succ m' => simpa [List.drop_succ_cons] using ih hfs m'
        | some k => rw [hfs] at h; cases h

/-- The index returned by `findSub` is within the text. -/
theorem findSub_some_le_length {pat : List Char} :
    ∀ {t : List Char} {n : Nat}, findSub pat t = some n → n ≤ t.length := by
  intro t
  induction t with
  | nil =>
      intro n h
      simp only [findSub] at h
      split at h
      · cases h; simp
      · cases h
  | cons c rest ih =>
      intro n h
      simp only [findSub] at h
      split at h
      next => cases h; simp
      next =>
        cases hfs : findSub pat rest with
        | none => rw [hfs] at h; cases h
        | some k =>
            rw [hfs] at h
            simp only [Option.map_some'] at h
            cases h
            have := ih hfs
            simp only [List.length_cons]
            omega

/-- The whole occurrence found by `findSub` lies within the text. -/
theorem findSub_some_le {pat t : List Char} {n : Nat}
    (h : findSub pat t = some n) : n + pat.length ≤ t.length := by
  have h1 : List.isPrefixOf pat (t.drop n) = true := findSub_some_isPrefixOf h
  have h2 : pat.length ≤ (t.drop n).length :=
    (List.isPrefixOf_iff_prefix.mp h1).length_le
  have h3 : n ≤ t.length := findSub_some_le_length h
  rw [List.length_drop] at h2
  omega

/-- `occursB` holds exactly when the pattern occurs as a substring. -/
theorem occursB_iff {pat t : List Char} :
    occursB pat t = true ↔ ∃ a b, t = a ++ pat ++ b := by
  constructor
  · intro h
    rcases Option.isSome_iff_exists.mp h with ⟨n, hn⟩
    have hpre := findSub_some_isPrefixOf hn
    rcases List.isPrefixOf_iff_prefix.mp hpre with ⟨b, hb⟩
    refine ⟨t.take n, b, ?_⟩
    conv_lhs => rw [← List.take_append_drop n t]
    rw [← hb, List.append_assoc]
  · rintro ⟨a, b, rfl⟩
    induction a with
    | nil =>
        cases hpb : pat ++ b with
        | nil =>
            rcases List.append_eq_nil.mp hpb with ⟨h1, h2⟩
            subst h1
            subst h2
            simp [occursB, findSub]
        | cons c r =>
            have : List.isPrefixOf pat (c :: r) = true := by
              rw [← hpb]
              exact List.isPrefixOf_iff_prefix.mpr ⟨b, rfl⟩
            simp [occursB, findSub, hpb, this]
    | cons x a' ih =>
        simp only [List.cons_append, occursB, findSub]
        split
        · simp
        · simpa [occursB] using ih

/-- No occurrence in `c :: rest` means no match at the head and none in
`rest`. -/
theorem occursB_cons_eq_false {pat : List Char} {c : Char} {rest : List Char} :
    occursB pat (c :: rest) = false ↔
      List.isPrefixOf pat (c :: rest) = false ∧ occursB pat rest = false := by
  simp only [occursB, findSub]
  constructor
  · intro h
    split at h
    · simp at h
    · refine ⟨Bool.eq_false_iff.mpr ‹_›, ?_⟩
      cases hfs : findSub pat rest with
      | none => simp
      | some k => rw [hfs] at h; simp at h
  · rintro ⟨h1, h2⟩
    split
    next hp => rw [hp] at h1; cases h1
    next =>
      cases hfs : findSub pat rest with
      | none => simp
      | some k =>
          have : (findSub pat rest).isSome = false := h2
          rw [hfs] at this
          simp at this

-- ===========================================================================
-- Lemmas: leftmost regex scan
-- ===========================================================================

/-- `scanFirst` finds a position where the matcher succeeds, and the matcher
fails at every earlier position: leftmost-match semantics. -/
theorem scanFirst_some {α : Type} {f : List Char → Option α} :
    ∀ {t : List Char} {i : Nat} {a : α}, scanFirst f t = some (i, a) →
      f (t.drop i) = some a ∧ ∀ j, j < i → f (t.drop j) = none := by
  intro t
  induction t with
  | nil =>
      intro i a h
      simp only [scanFirst] at h
      cases hf : f [] with
      | none => rw [hf] at h; cases h
      | some b =>
          rw [hf] at h
          simp only [Option.map_some'] at h
          cases h
          exact ⟨hf, by omega⟩
  | cons c rest ih =>
      intro i a h
      simp only [scanFirst] at h
      cases hf : f (c :: rest) with
      | some b =>
          rw [hf] at h
          cases h
          exact ⟨hf, by omega⟩
      | none =>
          rw [hf] at h
          cases hs : scanFirst f rest with
          | none => rw [hs] at h; cases h
          | some p =>
              rw [hs] at h
              simp only [Option.map_some'] at h
              cases h
              obtain ⟨h1, h2⟩ := ih hs
              refine ⟨by simpa [List.drop_succ_cons] using h1, ?_⟩
              intro j hj
              cases j with
              | zero => simpa using hf
              | succ j' =>
                  have : j' < p.1 := by omega
                  simpa [List.drop_succ_cons] using h2 j' this

-- ===========================================================================
-- Lemmas: literal replacement as segments between occurrences
-- ===========================================================================

/-- A nonempty pattern never occurs in the empty text. -/
theorem occursB_nil {pat : List Char} (hp : pat ≠ []) :
    occursB pat [] = false := by
  cases pat with
  | nil => cases hp rfl
  | cons p ps => simp [occursB, findSub, List.isPrefixOf]

/-- `splitOnPatAux` always produces at least one segment. -/
theorem splitOnPatAux_ne_nil (pat : List Char) :
    ∀ (fuel : Nat) (t : List Char), splitOnPatAux pat fuel t ≠ [] := by
  intro fuel
  induction fuel with
  | zero =>
      intro t
      cases t <;> simp [splitOnPatAux]
  | succ fuel ih =>
      intro t
      cases t with
      | nil => simp [splitOnPatAux]
      | cons c rest =>
          simp only [splitOnPatAux]
          split
          · simp
          · split <;> simp

/-- Prepending a character to the head segment. -/
theorem joinSep_cons_head (sep : List Char) (c : Char) (s : List Char)
    (ss : List (List Char)) :
    joinSep sep ((c :: s) :: ss) = c :: joinSep sep (s :: ss) := by
  cases ss with
  | nil => rfl
  | cons y ys => simp [joinSep]

/-- The head segment is a prefix of the joined list. -/
theorem joinSep_cons_exists (sep s : List Char) (ss : List (List Char)) :
    ∃ u, joinSep sep (s :: ss) = s ++ u := by
  cases ss with
  | nil => exact ⟨[], by simp [joinSep]⟩
  | cons y ys => exact ⟨sep ++ joinSep sep (y :: ys), by simp [joinSep]⟩

/-- Joining after an empty head segment. -/
theorem joinSep_nil_head (sep : List Char) (s : List Char)
    (ss : List (List Char)) :
    joinSep sep ([] :: s :: ss) = sep ++ joinSep sep (s :: ss) := by
  simp [joinSep]

/-- Core characterization: the scan of `replaceAll` cuts the text into the
segments of `splitOnPat`; the text is the segments joined by the pattern,
the output is the segments joined by the replacement, and no segment
contains the pattern. -/
theorem replaceAll_splitOnPat_aux (pat repl : List Char) (hp : pat ≠ []) :
    ∀ (fuel : Nat) (t : List Char), t.length ≤ fuel →
      t = joinSep pat (splitOnPatAux pat fuel t)
      ∧ replaceAllAux pat repl fuel t = joinSep repl (splitOnPatAux pat fuel t)
      ∧ (splitOnPatAux pat fuel t).all (fun seg => !(occursB pat seg)) = true := by
  intro fuel
  induction fuel with
  | zero =>
      intro t ht
      have : t = [] := List.eq_nil_of_length_eq_zero (Nat.le_zero.mp ht)
      subst this
      refine ⟨rfl, rfl, ?_⟩
      simp [splitOnPatAux, joinSep, occursB_nil hp]
  | succ fuel ih =>
      intro t ht
      cases t with
      | nil =>
          refine ⟨rfl, rfl, ?_⟩
          simp [splitOnPatAux, joinSep, occursB_nil hp]
      | cons c rest =>
          by_cases hcond : (!pat.isEmpty && List.isPrefixOf pat (c :: rest)) = true
          · have hpre : List.isPrefixOf pat (c :: rest) = true := by
              have h' := hcond
              simp only [Bool.and_eq_true] at h'
              exact h'.2
            have hsplit : pat ++ List.drop pat.length (c :: rest) = c :: rest := by
              have := List.prefix_iff_eq_take.mp (List.isPrefixOf_iff_prefix.mp hpre)
              conv_rhs => rw [← List.take_append_drop pat.length (c :: rest)]
              rw [← this]
            have hplen : 1 ≤ pat.length := by
              cases pat with
              | nil => cases hp rfl
              | cons p ps => simp
            have hlen : (List.drop pat.length (c :: rest)).length ≤ fuel := by
              rw [List.length_drop]
              simp only [List.length_cons] at ht ⊢
              omega
            obtain ⟨ih1, ih2, ih3⟩ := ih (List.drop pat.length (c :: rest)) hlen
            obtain ⟨s, ss, hS⟩ :
                ∃ s ss, splitOnPatAux pat fuel (List.drop pat.length (c :: rest))
                  = s :: ss := by
              cases hS : splitOnPatAux pat fuel (List.drop pat.length (c :: rest)) with
              | nil => exact absurd hS (splitOnPatAux_ne_nil pat fuel _)
              | cons s ss => exact ⟨s, ss, rfl⟩
            have hsxx : splitOnPatAux pat (fuel + 1) (c :: rest)
                = [] :: s :: ss := by
              simp only [splitOnPatAux]
              rw [if_pos hcond, hS]
            refine ⟨?_, ?_, ?_⟩
            · rw [hsxx, joinSep_nil_head]
              rw [hS] at ih1
              rw [← ih1, hsplit]
            · rw [hsxx, joinSep_nil_head]
              simp only [replaceAllAux]
              rw [if_pos hcond]
              rw [hS] at ih2
              rw [ih2]
            · rw [hsxx]
              rw [hS] at ih3
              simp only [List.all_cons, Bool.and_eq_true] at ih3 ⊢
              exact ⟨by simp [occursB_nil hp], ih3⟩
          · have hcond' : (!pat.isEmpty && List.isPrefixOf pat (c :: rest)) = false :=
              Bool.eq_false_iff.mpr hcond
            have hpre : List.isPrefixOf pat (c :: rest) = false := by
              have hne : pat.isEmpty = false := by
                cases pat with
                | nil => cases hp rfl
                | cons p ps => rfl
              rw [hne] at hcond'
              simpa using hcond'
            have hlen : rest.length ≤ fuel := by
              simp only [List.length_cons] at ht
              omega
            obtain ⟨ih1, ih2, ih3⟩ := ih rest hlen
            obtain ⟨s, ss, hS⟩ : ∃ s ss, splitOnPatAux pat fuel rest = s :: ss := by
              cases hS : splitOnPatAux pat fuel rest with
              | nil => exact absurd hS (splitOnPatAux_ne_nil pat fuel rest)
              | cons s ss => exact ⟨s, ss, rfl⟩
            rw [hS] at ih1 ih2 ih3
            have hstep : splitOnPatAux pat (fuel + 1) (c :: rest)
                = (c :: s) :: ss := by
              simp only [splitOnPatAux]
              rw [if_neg (by simp [hcond'])]
              rw [hS]
            refine ⟨?_, ?_, ?_⟩
            · rw [hstep, joinSep_cons_head, ← ih1]
            · have : replaceAllAux pat repl (fuel + 1) (c :: rest)
                  = c :: replaceAllAux pat repl fuel rest := by
                simp only [replaceAllAux]
                rw [if_neg]
                simp [hcond']
              rw [this, hstep, joinSep_cons_head, ih2]
            · rw [hstep]
              simp only [List.all_cons, Bool.and_eq_true] at ih3 ⊢
              have hocc_s : occursB pat s = false := by
                simpa using ih3.1
              have hocc_cs : occursB pat (c :: s) = false := by
                rw [occursB_cons_eq_false]
                refine ⟨?_, hocc_s⟩
                by_cases hx : List.isPrefixOf pat (c :: s) = true
                · exfalso
                  obtain ⟨u, hu⟩ := joinSep_cons_exists pat s ss
                  have hps : pat <+: (c :: s) := List.isPrefixOf_iff_prefix.mp hx
                  have hsr : (c :: s) <+: (c :: rest) := by
                    refine ⟨u, ?_⟩
                    simp only [List.cons_append]
                    congr 1
                    rw [ih1, hu]
                  have : pat <+: (c :: rest) := hps.trans hsr
                  rw [← List.isPrefixOf_iff_prefix] at this
                  rw [this] at hpre
                  cases hpre
                · exact Bool.eq_false_iff.mpr hx
              exact ⟨by simp [hocc_cs], ih3.2⟩

/-- `replaceAll` characterization on the full text. -/
theorem replaceAll_splitOnPat (pat repl t : List Char) (hp : pat ≠ []) :
    t = joinSep pat (splitOnPat pat t)
    ∧ replaceAll pat repl t = joinSep repl (splitOnPat pat t)
    ∧ (splitOnPat pat t).all (fun seg => !(occursB pat seg)) = true :=
  replaceAll_splitOnPat_aux pat repl hp t.length t (Nat.le_refl _)

/-- If the pattern does not occur, `replaceAll` is the identity. -/
theorem replaceAll_no_occ_aux (pat repl : List Char) :
    ∀ (fuel : Nat) (t : List Char), t.length ≤ fuel →
      occursB pat t = false → replaceAllAux pat repl fuel t = t := by
  intro fuel
  induction fuel with
  | zero =>
      intro t ht _
      have : t = [] := List.eq_nil_of_length_eq_zero (Nat.le_zero.mp ht)
      subst this
      rfl
  | succ fuel ih =>
      intro t ht hocc
      cases t with
      | nil => rfl
      | cons c rest =>
          obtain ⟨h1, h2⟩ := occursB_cons_eq_false.mp hocc
          simp only [replaceAllAux]
          rw [if_neg]
          · congr 1
            apply ih rest _ h2
            simp only [List.length_cons] at ht
            omega
          · simp [h1]

/-- If the pattern does not occur, `replaceAll` returns its input. -/
theorem replaceAll_no_occ {pat repl t : List Char}
    (h : occursB pat t = false) : replaceAll pat repl t = t :=
  replaceAll_no_occ_aux pat repl t.length t (Nat.le_refl _) h

-- ===========================================================================
-- Lemmas: stripping and line splitting
-- ===========================================================================

/-- `rtrim` is idempotent. -/
theorem rtrim_rtrim (p : Char → Bool) (l : List Char) :
    rtrim p (rtrim p l) = rtrim p l := by
  unfold rtrim
  rw [List.reverse_reverse, List.dropWhile_idempotent]

/-- The head of a `dropWhile` result does not satisfy the predicate. -/
theorem dropWhile_head_false (p : Char → Bool) (l : List Char) :
    List.dropWhile p l = [] ∨
      ∃ c u, List.dropWhile p l = c :: u ∧ p c = false := by
  induction l with
  | nil => exact Or.inl rfl
  | cons c rest ih =>
      rw [List.dropWhile_cons]
      by_cases hc : p c = true
      · rw [if_pos hc]; exact ih
      · rw [if_neg hc]
        exact Or.inr ⟨c, rest, rfl, Bool.eq_false_iff.mpr hc⟩

/-- Left-trimming after right-trimming a left-trimmed list changes
nothing. -/
theorem dropWhile_rtrim_dropWhile (p : Char → Bool) (l : List Char) :
    List.dropWhile p (rtrim p (List.dropWhile p l))
      = rtrim p (List.dropWhile p l) := by
  rcases dropWhile_head_false p l with h | ⟨c, u, hu, hc⟩
  · rw [h]; rfl
  · rw [hu]
    unfold rtrim
    rw [List.reverse_cons, List.dropWhile_append]
    split
    next hemp =>
        have : List.dropWhile p [c] = [c] := by
          rw [List.dropWhile_cons, if_neg (by simp [hc])]
        rw [this]
        simp [hc]
    next hemp =>
        rw [List.reverse_append]
        simp only [List.reverse_cons, List.reverse_nil, List.nil_append,
          List.singleton_append, List.dropWhile_cons]
        rw [if_neg (by simp [hc])]

/-- Left-trimming a stripped list changes nothing. -/
theorem dropWhile_pyStrip (l : List Char) :
    List.dropWhile isPySpace (pyStrip l) = pyStrip l :=
  dropWhile_rtrim_dropWhile isPySpace l

/-- `pyStrip` is idempotent. -/
theorem pyStrip_idem (l : List Char) : pyStrip (pyStrip l) = pyStrip l := by
  show rtrim isPySpace (List.dropWhile isPySpace (pyStrip l)) = pyStrip l
  rw [dropWhile_pyStrip]
  exact rtrim_rtrim isPySpace (List.dropWhile isPySpace l)

/-- Stripping ignores prepended spaces. -/
theorem pyStrip_replicate_space (n : Nat) (l : List Char) :
    pyStrip (List.replicate n ' ' ++ l) = pyStrip l := by
  unfold pyStrip
  congr 1
  induction n with
  | zero => rfl
  | succ n ih =>
      rw [List.replicate_succ, List.cons_append, List.dropWhile_cons,
        if_pos (by rfl)]
      exact ih

/-- Characters of `pyStrip l` come from `l`. -/
theorem mem_pyStrip {c : Char} {l : List Char} (h : c ∈ pyStrip l) : c ∈ l := by
  unfold pyStrip rtrim at h
  rw [List.mem_reverse] at h
  have h2 := (List.dropWhile_sublist isPySpace
    (l := (List.dropWhile isPySpace l).reverse)).mem h
  rw [List.mem_reverse] at h2
  exact (List.dropWhile_sublist isPySpace (l := l)).mem h2

/-- An occurrence of a pattern headed by a non-`p` character survives
`dropWhile p`. -/
theorem dropWhile_append_occurs {p : Char → Bool} {pat : List Char}
    (a b : List Char) (hh : ∃ c u, pat = c :: u ∧ p c = false) :
    ∃ a2, List.dropWhile p (a ++ pat ++ b) = a2 ++ pat ++ b := by
  obtain ⟨c, u, hpat, hc⟩ := hh
  rw [List.append_assoc, List.dropWhile_append]
  split
  · refine ⟨[], ?_⟩
    subst hpat
    rw [List.cons_append, List.dropWhile_cons, if_neg (by simp [hc])]
    simp
  · exact ⟨List.dropWhile p a, by rw [List.append_assoc]⟩

/-- An occurrence of a nonempty all-non-whitespace pattern survives
`pyStrip`. -/
theorem occursB_pyStrip {pat t : List Char}
    (hne : pat ≠ []) (hws : ∀ c ∈ pat, isPySpace c = false)
    (h : occursB pat t = true) : occursB pat (pyStrip t) = true := by
  rcases occursB_iff.mp h with ⟨a, b, rfl⟩
  have hhead : ∃ c u, pat = c :: u ∧ isPySpace c = false := by
    cases pat with
    | nil => cases hne rfl
    | cons c u => exact ⟨c, u, rfl, hws c (by simp)⟩
  obtain ⟨a2, ha2⟩ := dropWhile_append_occurs a b hhead
  unfold pyStrip rtrim
  rw [ha2]
  have hrhead : ∃ c u, pat.reverse = c :: u ∧ isPySpace c = false := by
    cases hr : pat.reverse with
    | nil =>
        exfalso
        apply hne
        have := congrArg List.reverse hr
        simpa using this
    | cons c u =>
        refine ⟨c, u, rfl, ?_⟩
        apply hws
        rw [← List.mem_reverse, hr]
        simp
  have hrev : (a2 ++ pat ++ b).reverse = b.reverse ++ pat.reverse ++ a2.reverse := by
    simp [List.reverse_append, List.append_assoc]
  rw [hrev]
  obtain ⟨b2, hb2⟩ := dropWhile_append_occurs b.reverse a2.reverse hrhead
  rw [hb2]
  apply occursB_iff.mpr
  refine ⟨a2, b2.reverse, ?_⟩
  simp [List.reverse_append, List.append_assoc]

/-- `splitNl` always returns at least one line. -/
theorem splitNl_ne_nil : ∀ (t : List Char), splitNl t ≠ [] := by
  intro t
  cases t with
  | nil => simp [splitNl]
  | cons c rest =>
      simp only [splitNl]
      split
      · simp
      · split <;> simp

/-- The `splitNl` step at a non-newline head. -/
theorem splitNl_cons_ne {ch : Char} (hch : ch ≠ '\n') (rest : List Char) :
    splitNl (ch :: rest) =
      match splitNl rest with
      | [] => [[ch]]
      | s :: ss => (ch :: s) :: ss := by
  simp only [splitNl]
  rw [if_neg (by simpa using hch)]

/-- The `splitNl` step at a newline. -/
theorem splitNl_cons_nl (rest : List Char) :
    splitNl ('\n' :: rest) = [] :: splitNl rest := by
  simp only [splitNl]
  rw [if_pos (by simp)]

/-- Splitting after a newline-free prefix. -/
theorem splitNl_append_nlfree {x : List Char} (hx : ∀ c ∈ x, c ≠ '\n') :
    ∀ (y : List Char), ∃ s ss, splitNl y = s :: ss ∧
      splitNl (x ++ y) = (x ++ s) :: ss := by
  induction x with
  | nil =>
      intro y
      cases hS : splitNl y with
      | nil => exact absurd hS (splitNl_ne_nil y)
      | cons s ss => exact ⟨s, ss, rfl, by simpa using hS⟩
  | cons ch x' ih =>
      intro y
      have hch : ch ≠ '\n' := hx ch (by simp)
      have hx' : ∀ c ∈ x', c ≠ '\n' := fun c hc => hx c (by simp [hc])
      obtain ⟨s, ss, h1, h2⟩ := ih hx' y
      refine ⟨s, ss, h1, ?_⟩
      show splitNl (ch :: (x' ++ y)) = (ch :: (x' ++ s)) :: ss
      rw [splitNl_cons_ne hch, h2]

/-- Every line produced by `splitNl` is newline-free. -/
theorem mem_splitNl_nlfree :
    ∀ (t : List Char), ∀ l ∈ splitNl t, ∀ c ∈ l, c ≠ '\n' := by
  intro t
  induction t with
  | nil =>
      intro l hl c hc
      simp [splitNl] at hl
      subst hl
      simp at hc
  | cons ch rest ih =>
      intro l hl c hc
      simp only [splitNl] at hl
      by_cases hch : ch = '\n'
      · rw [if_pos (by simp [hch])] at hl
        rcases List.mem_cons.mp hl with h | h
        · subst h; simp at hc
        · exact ih l h c hc
      · rw [if_neg (by simpa using hch)] at hl
        cases hS : splitNl rest with
        | nil => exact absurd hS (splitNl_ne_nil rest)
        | cons s ss =>
            rw [hS] at hl
            rcases List.mem_cons.mp hl with h | h
            · subst h
              rcases List.mem_cons.mp hc with h' | h'
              · subst h'; exact hch
              · exact ih s (by rw [hS]; simp) c h'
            · exact ih l (by rw [hS]; simp [h]) c hc

/-- `splitNl` inverts `joinSep` on nonempty lists of newline-free lines. -/
theorem splitNl_joinSep {M : List (List Char)}
    (hM : ∀ l ∈ M, ∀ c ∈ l, c ≠ '\n') (hne : M ≠ []) :
    splitNl (joinSep ('\n' :: []) M) = M := by
  induction M with
  | nil => cases hne rfl
  | cons x M' ih =>
      cases M' with
      | nil =>
          show splitNl x = [x]
          obtain ⟨s, ss, h1, h2⟩ :=
            splitNl_append_nlfree (hM x (by simp)) []
          simp only [splitNl] at h1
          cases h1
          rw [List.append_nil] at h2
          simpa using h2
      | cons y M'' =>
          have hxy : joinSep ('\n' :: []) (x :: y :: M'')
              = x ++ ('\n' :: []) ++ joinSep ('\n' :: []) (y :: M'') := rfl
          rw [hxy, List.append_assoc]
          obtain ⟨s, ss, h1, h2⟩ :=
            splitNl_append_nlfree (hM x (by simp))
              (('\n' :: []) ++ joinSep ('\n' :: []) (y :: M''))
          have h3 : splitNl (('\n' :: []) ++ joinSep ('\n' :: []) (y :: M''))
              = [] :: splitNl (joinSep ('\n' :: []) (y :: M'')) := by
            simp [splitNl]
          rw [h3] at h1
          cases h1
          rw [h2]
          have ihy : splitNl (joinSep ('\n' :: []) (y :: M'')) = y :: M'' :=
            ih (fun l hl => hM l (by simp at hl ⊢; tauto)) (by simp)
          rw [ihy]
          simp

/-- An element of the joined list occurs in the join. -/
theorem joinSep_middle (sep l : List Char) :
    ∀ (pre post : List (List Char)),
      ∃ A B, joinSep sep (pre ++ l :: post) = A ++ l ++ B := by
  intro pre
  induction pre with
  | nil =>
      intro post
      obtain ⟨u, hu⟩ := joinSep_cons_exists sep l post
      exact ⟨[], u, by simpa using hu⟩
  | cons x pre' ih =>
      intro post
      obtain ⟨A, B, hAB⟩ := ih post
      cases hP : pre' ++ l :: post with
      | nil => simp at hP
      | cons y ys =>
          refine ⟨x ++ sep ++ A, B, ?_⟩
          have : joinSep sep (x :: (pre' ++ l :: post))
              = x ++ sep ++ joinSep sep (pre' ++ l :: post) := by
            rw [hP]; rfl
          rw [List.cons_append, this, hAB]
          simp [List.append_assoc]

/-- A pattern occurring in a member of `M` occurs in the join of `M`. -/
theorem occursB_joinSep_of_mem {pat sep : List Char} {M : List (List Char)}
    {l : List Char} (hl : l ∈ M) (h : occursB pat l = true) :
    occursB pat (joinSep sep M) = true := by
  obtain ⟨pre, post, hM⟩ := List.append_of_mem hl
  subst hM
  obtain ⟨A, B, hAB⟩ := joinSep_middle sep l pre post
  rcases occursB_iff.mp h with ⟨a, b, rfl⟩
  rw [hAB]
  exact occursB_iff.mpr ⟨A ++ a, b ++ B, by simp [List.append_assoc]⟩

/-- An occurrence of a newline-free pattern lies within some line. -/
theorem occursB_exists_line {pat : List Char}
    (hnl : ∀ c ∈ pat, c ≠ '\n') :
    ∀ (a b : List Char), ∃ l ∈ splitNl (a ++ pat ++ b), occursB pat l = true := by
  intro a
  induction a with
  | nil =>
      intro b
      obtain ⟨s, ss, h1, h2⟩ := splitNl_append_nlfree hnl b
      refine ⟨pat ++ s, ?_, ?_⟩
      · rw [show ([] : List Char) ++ pat ++ b = pat ++ b by simp, h2]
        simp
      · exact occursB_iff.mpr ⟨[], s, by simp⟩
  | cons ch a' ih =>
      intro b
      by_cases hch : ch = '\n'
      · obtain ⟨l, hl, hocc⟩ := ih b
        refine ⟨l, ?_, hocc⟩
        have hsp : splitNl ((ch :: a') ++ pat ++ b)
            = [] :: splitNl (a' ++ pat ++ b) := by
          show splitNl (ch :: (a' ++ pat ++ b)) = _
          subst hch
          exact splitNl_cons_nl _
        rw [hsp]
        exact List.mem_cons_of_mem _ hl
      · obtain ⟨l, hl, hocc⟩ := ih b
        cases hS : splitNl (a' ++ pat ++ b) with
        | nil => exact absurd hS (splitNl_ne_nil _)
        | cons s ss =>
            have hstep : splitNl ((ch :: a') ++ pat ++ b) = (ch :: s) :: ss := by
              show splitNl (ch :: (a' ++ pat ++ b)) = _
              rw [splitNl_cons_ne hch, hS]
            rw [hS] at hl
            rcases List.mem_cons.mp hl with h | h
            · subst h
              refine ⟨ch :: l, by rw [hstep]; simp, ?_⟩
              rcases occursB_iff.mp hocc with ⟨x, y, hxy⟩
              exact occursB_iff.mpr ⟨ch :: x, y, by simp [hxy]⟩
            · exact ⟨l, by rw [hstep]; simp [h], hocc⟩

-- ===========================================================================
-- Lemmas: indentation
-- ===========================================================================

/-- Elements of the indented line list are newline-free. -/
theorem indented_lines_nlfree (t : List Char) (n : Nat) :
    ∀ l ∈ ((((splitNl t).map pyStrip).filter (fun l => !l.isEmpty)).map
      (fun l => List.replicate n ' ' ++ l)), ∀ c ∈ l, c ≠ '\n' := by
  intro l hl c hc
  obtain ⟨w, hw, hwl⟩ := List.mem_map.mp hl
  obtain ⟨line, hline, hwline⟩ := List.mem_map.mp (List.mem_filter.mp hw).1
  subst hwl
  rcases List.mem_append.mp hc with h | h
  · have := (List.mem_replicate.mp h).2
    subst this
    intro hcon
    cases hcon
  · subst hwline
    exact mem_splitNl_nlfree t line hline c (mem_pyStrip h)

/-- Mapping `pyStrip` over already-indented lines undoes the indentation. -/
theorem map_pyStrip_indented (t : List Char) (n : Nat) :
    (((((splitNl t).map pyStrip).filter (fun l => !l.isEmpty)).map
        (fun l => List.replicate n ' ' ++ l)).map pyStrip)
      = ((splitNl t).map pyStrip).filter (fun l => !l.isEmpty) := by
  rw [List.map_map]
  have h : ∀ w ∈ ((splitNl t).map pyStrip).filter (fun l => !l.isEmpty),
      (pyStrip ∘ fun l => List.replicate n ' ' ++ l) w = id w := by
    intro w hw
    obtain ⟨line, hline, hwline⟩ := List.mem_map.mp (List.mem_filter.mp hw).1
    simp only [Function.comp_apply, id_eq]
    rw [pyStrip_replicate_space, ← hwline, pyStrip_idem]
  rw [List.map_congr_left h, List.map_id]

/-- `apply_indent` is idempotent. -/
theorem apply_indent_idem_all (t : List Char) (n : Nat) :
    apply_indent (apply_indent t n) n = apply_indent t n := by
  cases hM : (((splitNl t).map pyStrip).filter (fun l => !l.isEmpty)).map
      (fun l => List.replicate n ' ' ++ l) with
  | nil =>
      show apply_indent (joinSep ('\n' :: [])
        ((((splitNl t).map pyStrip).filter (fun l => !l.isEmpty)).map
          (fun l => List.replicate n ' ' ++ l))) n = _
      rw [hM]
      show apply_indent [] n = apply_indent t n
      show ([] : List Char) = apply_indent t n
      show ([] : List Char) = joinSep ('\n' :: [])
        ((((splitNl t).map pyStrip).filter (fun l => !l.isEmpty)).map
          (fun l => List.replicate n ' ' ++ l))
      rw [hM]
      rfl
  | cons m M' =>
      have hnl := indented_lines_nlfree t n
      rw [hM] at hnl
      have hsplit : splitNl (joinSep ('\n' :: []) (m :: M')) = m :: M' :=
        splitNl_joinSep hnl (by simp)
      show apply_indent (joinSep ('\n' :: [])
        ((((splitNl t).map pyStrip).filter (fun l => !l.isEmpty)).map
          (fun l => List.replicate n ' ' ++ l))) n = _
      rw [hM]
      show joinSep ('\n' :: [])
        ((((splitNl (joinSep ('\n' :: []) (m :: M'))).map pyStrip).filter
          (fun l => !l.isEmpty)).map (fun l => List.replicate n ' ' ++ l)) = _
      rw [hsplit, ← hM, map_pyStrip_indented]
      have hfil : (((splitNl t).map pyStrip).filter (fun l => !l.isEmpty)).filter
          (fun l => !l.isEmpty) = ((splitNl t).map pyStrip).filter
          (fun l => !l.isEmpty) :=
        List.filter_eq_self.mpr (fun a ha => (List.mem_filter.mp ha).2)
      rw [hfil]
      rfl

/-- Removing blank lines first does not change the result of
`apply_indent`. -/
theorem apply_indent_removeBlank (t : List Char) (n : Nat) :
    apply_indent (removeBlankLines t) n = apply_indent t n := by
  have hLK : ((splitNl t).map pyStrip).filter (fun l => !l.isEmpty)
      = ((splitNl t).filter (fun l => !(pyStrip l).isEmpty)).map pyStrip := by
    rw [List.filter_map]
    congr 1
  cases hK : (splitNl t).filter (fun l => !(pyStrip l).isEmpty) with
  | nil =>
      show apply_indent (joinSep ('\n' :: [])
        ((splitNl t).filter (fun l => !(pyStrip l).isEmpty))) n = _
      rw [hK]
      show apply_indent [] n = apply_indent t n
      show ([] : List Char) = apply_indent t n
      show ([] : List Char) = joinSep ('\n' :: [])
        ((((splitNl t).map pyStrip).filter (fun l => !l.isEmpty)).map
          (fun l => List.replicate n ' ' ++ l))
      rw [hLK, hK]
      rfl
  | cons k K' =>
      have hknl : ∀ l ∈ k :: K', ∀ c ∈ l, c ≠ '\n' := by
        intro l hl
        rw [← hK] at hl
        exact mem_splitNl_nlfree t l (List.mem_filter.mp hl).1
      have hsplit : splitNl (joinSep ('\n' :: []) (k :: K')) = k :: K' :=
        splitNl_joinSep hknl (by simp)
      show apply_indent (joinSep ('\n' :: [])
        ((splitNl t).filter (fun l => !(pyStrip l).isEmpty))) n = _
      rw [hK]
      show joinSep ('\n' :: [])
        ((((splitNl (joinSep ('\n' :: []) (k :: K'))).map pyStrip).filter
          (fun l => !l.isEmpty)).map (fun l => List.replicate n ' ' ++ l))
        = apply_indent t n
      rw [hsplit, ← hK]
      have hKfil : (((splitNl t).filter (fun l => !(pyStrip l).isEmpty)).map
            pyStrip).filter (fun l => !l.isEmpty)
          = ((splitNl t).filter (fun l => !(pyStrip l).isEmpty)).map pyStrip := by
        rw [List.filter_map]
        have : ((splitNl t).filter (fun l => !(pyStrip l).isEmpty)).filter
            ((fun l => !l.isEmpty) ∘ pyStrip)
            = (splitNl t).filter (fun l => !(pyStrip l).isEmpty) := by
          apply List.filter_eq_self.mpr
          intro a ha
          simpa using List.of_mem_filter ha
        rw [this]
      rw [hKfil, ← hLK]
      rfl

-- ===========================================================================
-- Lemmas: the locator pattern
-- ===========================================================================

/-- A locator match fits inside the text it matched on. -/
theorem matchLocatorLen_le {maskId t : List Char} {l : Nat}
    (h : matchLocatorLen maskId t = some l) : l ≤ t.length := by
  unfold matchLocatorLen at h
  split at h
  case isFalse => cases h
  case isTrue h1 =>
    have hA : svgOpenLit.length ≤ t.length :=
      (List.isPrefixOf_iff_prefix.mp h1).length_le
    cases h2 : findSub ('>' :: []) (t.drop svgOpenLit.length) with
    | none => rw [h2] at h; cases h
    | some i =>
        rw [h2] at h
        have hi : i + 1 ≤ t.length - svgOpenLit.length := by
          have := findSub_some_le h2
          simpa using this
        simp only at h
        split at h
        case isFalse => cases h
        case isTrue h3 =>
          have hws : ((t.drop (svgOpenLit.length + i + 1)).takeWhile
              isPySpace).length ≤ t.length - (svgOpenLit.length + i + 1) := by
            have := (List.takeWhile_sublist (l := t.drop (svgOpenLit.length + i + 1))
              isPySpace).length_le
            rwa [List.length_drop] at this
          have hmask : (maskOpenLit maskId).length ≤
              t.length - (svgOpenLit.length + i + 1 +
                ((t.drop (svgOpenLit.length + i + 1)).takeWhile isPySpace).length) := by
            have := (List.isPrefixOf_iff_prefix.mp h3).length_le
            rwa [List.length_drop] at this
          split at h
          case h_1 => cases h
          case h_2 k h4 =>
            have hk := findSub_some_le h4
            rw [List.length_drop] at hk
            cases h
            omega

/-- The locator never matches on empty text. -/
theorem matchLocatorLen_nil (maskId : List Char) :
    matchLocatorLen maskId [] = none := by
  unfold matchLocatorLen
  rw [if_neg]
  intro hcon
  have hle := (List.isPrefixOf_iff_prefix.mp hcon).length_le
  have : svgOpenLit.length = 27 := by decide
  simp [this] at hle

-- ===========================================================================
-- Claim theorems
-- ===========================================================================

/-- C1: when the locator pattern for `maskId` matches in `content`,
`find_and_replace_icon` replaces exactly the first left-to-right matched
span `[s, s+l)` with the freshly constructed wrapper block (fixed opening
tag, the prepared fragment, the closing tag at the given indent) and
reports `true`; the text before and after the span is carried over
unchanged, the span is a locator match, and no earlier position matches,
so any later occurrence of the identifier is unaffected. -/
theorem find_and_replace_icon_first_match
    (content maskId frag ind : List Char) (s l : Nat)
    (h : searchLocator maskId content = some (s, l)) :
    find_and_replace_icon content maskId frag ind
      = (content.take s ++ newSvgBlock frag ind ++ content.drop (s + l), true)
    ∧ content = content.take s ++ (content.drop s).take l ++ content.drop (s + l)
    ∧ matchLocatorLen maskId (content.drop s) = some l
    ∧ s + l ≤ content.length
    ∧ (∀ i, i < s → matchLocatorLen maskId (content.drop i) = none) := by
  obtain ⟨h1, h2⟩ := scanFirst_some h
  refine ⟨?_, ?_, h1, ?_, h2⟩
  · simp only [find_and_replace_icon, searchLocator] at h ⊢
    rw [h]
  · conv_lhs => rw [← List.take_append_drop s content]
    rw [List.append_assoc]
    congr 1
    conv_lhs => rw [← List.take_append_drop l (content.drop s)]
    congr 1
    rw [List.drop_drop]
  · have hl := matchLocatorLen_le h1
    rw [List.length_drop] at hl
    have hs : s ≤ content.length := by
      by_contra hgt
      push_neg at hgt
      rw [List.drop_eq_nil_of_le (Nat.le_of_lt hgt)] at h1
      rw [matchLocatorLen_nil] at h1
      cases h1
    omega

/-- Witness: the locator theorem applied at a concrete document containing
the identifier, with the match at position 2 of length 61. -/
theorem find_and_replace_icon_first_match_applied :
    find_and_replace_icon
        (("xx<svg width=\"16\" height=\"16\" vv>\n  <mask id=\"mask-a\" s>y</svg>zz").data)
        (("mask-a").data) (("FRAG").data) (("  ").data)
      = ((("xx<svg width=\"16\" height=\"16\" vv>\n  <mask id=\"mask-a\" s>y</svg>zz").data).take 2
          ++ newSvgBlock (("FRAG").data) (("  ").data)
          ++ (("xx<svg width=\"16\" height=\"16\" vv>\n  <mask id=\"mask-a\" s>y</svg>zz").data).drop 63,
         true) :=
  (find_and_replace_icon_first_match _ _ _ _ 2 61 (by decide)).1

/-- C2: when the locator pattern does not match anywhere in the document,
`find_and_replace_icon` returns the document byte-for-byte unchanged with a
`false` outcome, and the identifier loop of `process_icon` continues with
the remaining identifiers on unchanged state instead of aborting. -/
theorem find_and_replace_icon_no_match_skips :
    (∀ content maskId frag ind, searchLocator maskId content = none →
      find_and_replace_icon content maskId frag ind = (content, false))
    ∧ (∀ svg m rest html react hc rc,
        (endsReact m = false → searchLocator m html = none →
          processMasks svg (m :: rest) html react hc rc
            = processMasks svg rest html react hc rc)
        ∧ (endsReact m = true → searchLocator m react = none →
          processMasks svg (m :: rest) html react hc rc
            = processMasks svg rest html react hc rc)) := by
  have hbase : ∀ content maskId frag ind, searchLocator maskId content = none →
      find_and_replace_icon content maskId frag ind = (content, false) := by
    intro content maskId frag ind h
    simp only [find_and_replace_icon, searchLocator] at h ⊢
    rw [h]
  refine ⟨hbase, ?_⟩
  intro svg m rest html react hc rc
  constructor
  · intro hm hs
    have hrep : replace_html_icon html m (prepare_icon_for_html svg m)
        = (html, false) := by
      unfold replace_html_icon
      exact hbase _ _ _ _ hs
    simp [processMasks, hm, hrep]
  · intro hm hs
    have hrep : replace_react_icon react m (prepare_icon_for_react svg m)
        = (react, false) := by
      unfold replace_react_icon
      exact hbase _ _ _ _ hs
    simp [processMasks, hm, hrep]

/-- Witness: a document without the placeholder is returned unchanged with
`false`, and processing proceeds to the remaining identifiers. -/
theorem find_and_replace_icon_no_match_skips_applied :
    find_and_replace_icon (("hello").data) (("mask-a").data) (("F").data) []
      = ((("hello").data), false)
    ∧ processMasks (("<svg>x</svg>").data) ((("mask-a").data) :: [])
        (("doc").data) (("rdoc").data) false false
      = processMasks (("<svg>x</svg>").data) [] (("doc").data) (("rdoc").data)
          false false :=
  ⟨find_and_replace_icon_no_match_skips.1 _ _ _ _ (by decide),
   (find_and_replace_icon_no_match_skips.2
      (("<svg>x</svg>").data) (("mask-a").data) [] (("doc").data)
      (("rdoc").data) false false).1 (by decide) (by decide)⟩

/-- C8: the fragment extractor returns, on a wrapper-pattern match, the
stripped text strictly between the first matched opening wrapper tag and
the first subsequent closing wrapper tag (the opening tag with its
attributes and the closing tag are discarded; no earlier position
matches); and on no match anywhere, the entire input stripped, without
failing. -/
theorem extract_svg_inner_content_spec (svg : List Char) :
    (scanFirst matchSvgLen svg = none →
      extract_svg_inner_content svg = pyStrip svg)
    ∧ (∀ i p n, scanFirst matchSvgLen svg = some (i, (p, n)) →
      extract_svg_inner_content svg = pyStrip ((svg.drop (i + p)).take n)
      ∧ matchSvgLen (svg.drop i) = some (p, n)
      ∧ (∀ j, j < i → matchSvgLen (svg.drop j) = none)
      ∧ findSub closeSvgLit (svg.drop (i + p)) = some n
      ∧ List.isPrefixOf closeSvgLit (svg.drop (i + p + n)) = true) := by
  constructor
  · intro h
    simp only [extract_svg_inner_content, h]
  · intro i p n h
    obtain ⟨h1, h2⟩ := scanFirst_some h
    have hfind : findSub closeSvgLit (svg.drop (i + p)) = some n := by
      unfold matchSvgLen at h1
      split at h1
      case isFalse => cases h1
      case isTrue hpre =>
        cases hgt : findSub ('>' :: []) ((svg.drop i).drop svgLit.length) with
        | none => rw [hgt] at h1; cases h1
        | some idx =>
            rw [hgt] at h1
            simp only at h1
            cases hcl : findSub closeSvgLit
                ((svg.drop i).drop (svgLit.length + idx + 1)) with
            | none => rw [hcl] at h1; cases h1
            | some k =>
                rw [hcl] at h1
                simp only [Option.some.injEq, Prod.mk.injEq] at h1
                obtain ⟨hp, hn⟩ := h1
                subst hp
                subst hn
                rwa [List.drop_drop] at hcl
    refine ⟨?_, h1, h2, hfind, ?_⟩
    · simp only [extract_svg_inner_content, h]
    · have := findSub_some_isPrefixOf hfind
      rwa [List.drop_drop] at this

/-- Witness: the extractor applied to a document with a wrapper pair
(match at position 1, opening tag of length 7, inner length 2) and to one
without a wrapper. -/
theorem extract_svg_inner_content_spec_applied :
    extract_svg_inner_content (("a<svg w>in</svg>b").data)
      = pyStrip (((("a<svg w>in</svg>b").data).drop (1 + 7)).take 2)
    ∧ extract_svg_inner_content (("plain text").data)
      = pyStrip (("plain text").data) :=
  ⟨((extract_svg_inner_content_spec _).2 1 7 2 (by decide)).1,
   (extract_svg_inner_content_spec _).1 (by decide)⟩

/-- C9: applying the indentation normalizer twice yields the same result
as applying it once on blank-line-free input, and blank lines are removed
entirely rather than indented: deleting them beforehand does not change
the result. -/
theorem apply_indent_idempotent_blankfree (t : List Char) (n : Nat) :
    (noBlankLines t = true →
      apply_indent (apply_indent t n) n = apply_indent t n)
    ∧ apply_indent (removeBlankLines t) n = apply_indent t n :=
  ⟨fun _ => apply_indent_idem_all t n, apply_indent_removeBlank t n⟩

/-- Witness: idempotence at a concrete blank-line-free two-line input. -/
theorem apply_indent_idempotent_blankfree_applied :
    apply_indent (apply_indent (("a\n b").data) 3) 3
      = apply_indent (("a\n b").data) 3 :=
  (apply_indent_idempotent_blankfree (("a\n b").data) 3).1 (by decide)

/-- C10: the adapter rewrites only the four exact double-quoted forms: if
none of the four patterns occurs, it is the identity; a single-quoted
`stroke-width`, a single-quoted style, or a re-spaced style value passes
through unchanged, while the exact double-quoted form is rewritten. -/
theorem convert_jsx_exact_forms_only (content : List Char) :
    (occursB styleHtmlPat content = false → occursB swPat content = false →
     occursB slcPat content = false → occursB sljPat content = false →
      convert_to_jsx_attributes content = content)
    ∧ convert_to_jsx_attributes
        (("<path stroke-width=\x272\x27 style=\"mask-type: alpha\" style=\x27mask-type:alpha\x27/>").data)
      = (("<path stroke-width=\x272\x27 style=\"mask-type: alpha\" style=\x27mask-type:alpha\x27/>").data)
    ∧ convert_to_jsx_attributes (("<path stroke-width=\"2\"/>").data)
      = (("<path strokeWidth=\"2\"/>").data) := by
  refine ⟨?_, by decide, by decide⟩
  intro h1 h2 h3 h4
  unfold convert_to_jsx_attributes
  rw [replaceAll_no_occ h1, replaceAll_no_occ h2, replaceAll_no_occ h3,
    replaceAll_no_occ h4]

/-- Witness: the adapter is the identity on content free of the four
patterns. -/
theorem convert_jsx_exact_forms_only_applied :
    convert_to_jsx_attributes (("<circle r=\"5\"/>").data)
      = (("<circle r=\"5\"/>").data) :=
  (convert_jsx_exact_forms_only _).1 (by decide) (by decide) (by decide)
    (by decide)

/-- An occurrence of a nonempty all-non-whitespace pattern survives
`apply_indent`. -/
theorem occursB_apply_indent {pat t : List Char} {n : Nat}
    (hne : pat ≠ []) (hws : ∀ c ∈ pat, isPySpace c = false)
    (h : occursB pat t = true) : occursB pat (apply_indent t n) = true := by
  have hnl : ∀ c ∈ pat, c ≠ '\n' := by
    intro c hc hcon
    subst hcon
    have := hws _ hc
    simp [isPySpace] at this
  rcases occursB_iff.mp h with ⟨a, b, hab⟩
  obtain ⟨l, hl, hocc⟩ := occursB_exists_line hnl a b
  rw [← hab] at hl
  have hstrip : occursB pat (pyStrip l) = true := occursB_pyStrip hne hws hocc
  have hne2 : (pyStrip l).isEmpty = false := by
    rcases occursB_iff.mp hstrip with ⟨x, y, hxy⟩
    rw [hxy]
    cases pat with
    | nil => cases hne rfl
    | cons c u => cases x <;> rfl
  have hmem : (List.replicate n ' ' ++ pyStrip l) ∈
      ((((splitNl t).map pyStrip).filter (fun w => !w.isEmpty)).map
        (fun w => List.replicate n ' ' ++ w)) := by
    apply List.mem_map.mpr
    refine ⟨pyStrip l, ?_, rfl⟩
    apply List.mem_filter.mpr
    exact ⟨List.mem_map.mpr ⟨l, hl, rfl⟩, by simp [hne2]⟩
  have hocc2 : occursB pat (List.replicate n ' ' ++ pyStrip l) = true := by
    rcases occursB_iff.mp hstrip with ⟨x, y, hxy⟩
    exact occursB_iff.mpr
      ⟨List.replicate n ' ' ++ x, y, by rw [hxy]; simp [List.append_assoc]⟩
  exact occursB_joinSep_of_mem hmem hocc2

/-- C5: the dialect adapter is the four fixed literal substitutions in
sequence; each pass replaces exactly the occurrences of its pattern in its
input (the text is the segments joined by the pattern, the output the same
segments joined by the replacement, and no segment contains the pattern),
so everything else is unchanged; it is applied only on the React path:
the HTML preparation is indentation over the shared core with no
conversion, so a hyphenated `stroke-width="` in the core surfaces
unconverted in the HTML output. -/
theorem convert_jsx_scope_spec (content svg m : List Char) :
    convert_to_jsx_attributes content
      = replaceAll sljPat sljRepl (replaceAll slcPat slcRepl
          (replaceAll swPat swRepl (replaceAll styleHtmlPat styleJsxRepl content)))
    ∧ (∀ u : List Char,
        (u = joinSep styleHtmlPat (splitOnPat styleHtmlPat u)
          ∧ replaceAll styleHtmlPat styleJsxRepl u
              = joinSep styleJsxRepl (splitOnPat styleHtmlPat u)
          ∧ (splitOnPat styleHtmlPat u).all
              (fun seg => !(occursB styleHtmlPat seg)) = true)
        ∧ (u = joinSep swPat (splitOnPat swPat u)
          ∧ replaceAll swPat swRepl u = joinSep swRepl (splitOnPat swPat u)
          ∧ (splitOnPat swPat u).all (fun seg => !(occursB swPat seg)) = true)
        ∧ (u = joinSep slcPat (splitOnPat slcPat u)
          ∧ replaceAll slcPat slcRepl u = joinSep slcRepl (splitOnPat slcPat u)
          ∧ (splitOnPat slcPat u).all (fun seg => !(occursB slcPat seg)) = true)
        ∧ (u = joinSep sljPat (splitOnPat sljPat u)
          ∧ replaceAll sljPat sljRepl u = joinSep sljRepl (splitOnPat sljPat u)
          ∧ (splitOnPat sljPat u).all (fun seg => !(occursB sljPat seg)) = true))
    ∧ prepare_icon_for_html svg m = apply_indent (prepared_core svg m) HTML_INDENT
    ∧ prepare_icon_for_react svg m
        = apply_indent (convert_to_jsx_attributes (prepared_core svg m)) REACT_INDENT
    ∧ (occursB swPat (prepared_core svg m) = true →
        occursB swPat (prepare_icon_for_html svg m) = true) := by
  refine ⟨rfl, ?_, rfl, rfl, ?_⟩
  · intro u
    exact ⟨replaceAll_splitOnPat styleHtmlPat styleJsxRepl u (by decide),
      replaceAll_splitOnPat swPat swRepl u (by decide),
      replaceAll_splitOnPat slcPat slcRepl u (by decide),
      replaceAll_splitOnPat sljPat sljRepl u (by decide)⟩
  · intro hocc
    show occursB swPat (apply_indent (prepared_core svg m) HTML_INDENT) = true
    exact occursB_apply_indent (by decide) (by decide) hocc

/-- Witness: a source fragment carrying `stroke-width="` keeps it,
hyphenated, in the HTML-prepared output. -/
theorem convert_jsx_scope_spec_applied :
    occursB swPat (prepare_icon_for_html
        (("<svg><path stroke-width=\"2\"/></svg>").data) (("mask-x").data))
      = true :=
  (convert_jsx_scope_spec [] (("<svg><path stroke-width=\"2\"/></svg>").data)
    (("mask-x").data)).2.2.2.2 (by decide)

/-- The double-quoted definition pattern is never empty. -/
theorem dqId_ne_nil (x : List Char) : dqId x ≠ [] := by
  intro hcon
  have hlen := congrArg List.length hcon
  have h4 : (("id=\"").data).length = 4 := rfl
  have h1 : (("\"").data).length = 1 := rfl
  simp only [dqId, List.length_append, h4, h1, List.length_nil] at hlen
  omega

/-- The single-quoted definition pattern is never empty. -/
theorem sqId_ne_nil (x : List Char) : sqId x ≠ [] := by
  intro hcon
  have hlen := congrArg List.length hcon
  have h3 : (("id=").data).length = 3 := rfl
  simp only [sqId, List.length_append, h3, List.length_cons,
    List.length_nil] at hlen
  omega

/-- The url reference pattern is never empty. -/
theorem urlRefId_ne_nil (x : List Char) : urlRefId x ≠ [] := by
  intro hcon
  have hlen := congrArg List.length hcon
  have h5 : (("url(#").data).length = 5 := rfl
  have h1 : ((")").data).length = 1 := rfl
  simp only [urlRefId, List.length_append, h5, h1, List.length_nil] at hlen
  omega

/-- C3 counterexample: an icon whose mask id definition is written only in
single-quoted form is not detected by the callers' double-quote-only
detection regex, so neither the HTML-prepared nor the React-prepared
fragment contains the rewritten double-quoted target definition, and both
still contain the original single-quoted definition. -/
theorem prepare_icon_single_quoted_not_detected :
    occursB (dqId (("mask-new").data))
        (prepare_icon_for_html
          (("<svg><mask id=\x27mask-a\x27>x</mask></svg>").data)
          (("mask-new").data)) = false
    ∧ occursB (sqId (("mask-a").data))
        (prepare_icon_for_html
          (("<svg><mask id=\x27mask-a\x27>x</mask></svg>").data)
          (("mask-new").data)) = true
    ∧ occursB (dqId (("mask-new").data))
        (prepare_icon_for_react
          (("<svg><mask id=\x27mask-a\x27>x</mask></svg>").data)
          (("mask-new").data)) = false
    ∧ occursB (sqId (("mask-a").data))
        (prepare_icon_for_react
          (("<svg><mask id=\x27mask-a\x27>x</mask></svg>").data)
          (("mask-new").data)) = true := by
  refine ⟨?_, ?_, ?_, ?_⟩
  · decide
  · decide
  · decide
  · decide

/-- C3 amended: only a double-quoted `id="mask…"` definition is detected,
in both the HTML and the React preparation; without one the fragment
passes through unrewritten on either path (the React path still applies
the dialect conversion and its own indentation), and with one the
detected identifier is rewritten on both paths by `update_mask_id`, whose
single-quote pass replaces every single-quoted definition of the
identifier surviving the double-quote pass by the double-quoted target
form (normalizing the quotes). -/
theorem prepare_icon_mask_detection_spec (svg target old content : List Char) :
    (detectMaskId (extract_svg_inner_content svg) = none →
      prepare_icon_for_html svg target
        = apply_indent (extract_svg_inner_content svg) HTML_INDENT
      ∧ prepare_icon_for_react svg target
        = apply_indent
            (convert_to_jsx_attributes (extract_svg_inner_content svg))
            REACT_INDENT)
    ∧ (detectMaskId (extract_svg_inner_content svg) = some old →
      prepare_icon_for_html svg target
        = apply_indent
            (update_mask_id (extract_svg_inner_content svg) old target)
            HTML_INDENT
      ∧ prepare_icon_for_react svg target
        = apply_indent
            (convert_to_jsx_attributes
              (update_mask_id (extract_svg_inner_content svg) old target))
            REACT_INDENT)
    ∧ update_mask_id content old target
        = replaceAll (urlRefId old) (urlRefId target)
            (joinSep (dqId target)
              (splitOnPat (sqId old)
                (replaceAll (dqId old) (dqId target) content)))
    ∧ replaceAll (dqId old) (dqId target) content
        = joinSep (sqId old)
            (splitOnPat (sqId old) (replaceAll (dqId old) (dqId target) content))
    ∧ (splitOnPat (sqId old) (replaceAll (dqId old) (dqId target) content)).all
        (fun seg => !(occursB (sqId old) seg)) = true := by
  obtain ⟨ha, hb, hc⟩ := replaceAll_splitOnPat (sqId old) (dqId target)
    (replaceAll (dqId old) (dqId target) content) (sqId_ne_nil old)
  refine ⟨?_, ?_, ?_, ha, hc⟩
  · intro h
    constructor
    · simp only [prepare_icon_for_html, h]
    · simp only [prepare_icon_for_react, h]
  · intro h
    constructor
    · simp only [prepare_icon_for_html, h]
    · simp only [prepare_icon_for_react, h]
  · show replaceAll (urlRefId old) (urlRefId target)
        (replaceAll (sqId old) (dqId target)
          (replaceAll (dqId old) (dqId target) content)) = _
    rw [hb]

/-- Witness: detection succeeds on a double-quoted definition and both
prepared fragments are the rewritten inner content, dialect-adapted and
indented per path. -/
theorem prepare_icon_mask_detection_applied :
    (prepare_icon_for_html (("<svg><mask id=\"mask-a\">x</mask></svg>").data)
        (("T").data)
      = apply_indent
          (update_mask_id
            (extract_svg_inner_content
              (("<svg><mask id=\"mask-a\">x</mask></svg>").data))
            (("mask-a").data) (("T").data))
          HTML_INDENT)
    ∧ (prepare_icon_for_react (("<svg><mask id=\"mask-a\">x</mask></svg>").data)
        (("T").data)
      = apply_indent
          (convert_to_jsx_attributes
            (update_mask_id
              (extract_svg_inner_content
                (("<svg><mask id=\"mask-a\">x</mask></svg>").data))
              (("mask-a").data) (("T").data)))
          REACT_INDENT) :=
  (prepare_icon_mask_detection_spec
    (("<svg><mask id=\"mask-a\">x</mask></svg>").data) (("T").data)
    (("mask-a").data) []).2.1 (by decide)

/-- C4 counterexample: with the fragment `id="mask"` (exactly one
double-quoted definition of the identifier `mask` and nothing else) and
the quote-carrying target `q"id='mask'r`, replacing every definition and
altering nothing else would yield exactly `id="<target>"`; the rewriter's
single-quote pass re-matches inside the first pass's output and produces
a different string. -/
theorem update_mask_id_quoted_target_interference :
    update_mask_id (dqId (("mask").data)) (("mask").data)
        (("q\"id=\x27mask\x27r").data)
      ≠ dqId (("q\"id=\x27mask\x27r").data) := by decide

/-- C4 amended: `update_mask_id` is three literal replacement passes —
double-quoted definition, single-quoted definition, url reference — each
of which replaces every occurrence of its pattern in the text it receives
and leaves the text between occurrences unchanged; each pattern carries
its terminating quote or parenthesis, so identifiers merely extending the
original are never matched.  Full end-to-end replacement therefore holds
pass-wise (and coincides with the claim whenever the passes do not
interfere, e.g. for quote-free targets). -/
theorem update_mask_id_pass_characterization (content old new : List Char) :
    (content = joinSep (dqId old) (splitOnPat (dqId old) content)
     ∧ replaceAll (dqId old) (dqId new) content
        = joinSep (dqId new) (splitOnPat (dqId old) content)
     ∧ (splitOnPat (dqId old) content).all
        (fun seg => !(occursB (dqId old) seg)) = true)
    ∧ (replaceAll (dqId old) (dqId new) content
        = joinSep (sqId old)
            (splitOnPat (sqId old) (replaceAll (dqId old) (dqId new) content))
     ∧ replaceAll (sqId old) (dqId new) (replaceAll (dqId old) (dqId new) content)
        = joinSep (dqId new)
            (splitOnPat (sqId old) (replaceAll (dqId old) (dqId new) content))
     ∧ (splitOnPat (sqId old) (replaceAll (dqId old) (dqId new) content)).all
        (fun seg => !(occursB (sqId old) seg)) = true)
    ∧ (replaceAll (sqId old) (dqId new) (replaceAll (dqId old) (dqId new) content)
        = joinSep (urlRefId old)
            (splitOnPat (urlRefId old)
              (replaceAll (sqId old) (dqId new)
                (replaceAll (dqId old) (dqId new) content)))
     ∧ update_mask_id content old new
        = joinSep (urlRefId new)
            (splitOnPat (urlRefId old)
              (replaceAll (sqId old) (dqId new)
                (replaceAll (dqId old) (dqId new) content)))
     ∧ (splitOnPat (urlRefId old)
          (replaceAll (sqId old) (dqId new)
            (replaceAll (dqId old) (dqId new) content))).all
        (fun seg => !(occursB (urlRefId old) seg)) = true) := by
  obtain ⟨h1a, h1b, h1c⟩ :=
    replaceAll_splitOnPat (dqId old) (dqId new) content (dqId_ne_nil old)
  obtain ⟨h2a, h2b, h2c⟩ := replaceAll_splitOnPat (sqId old) (dqId new)
    (replaceAll (dqId old) (dqId new) content) (sqId_ne_nil old)
  obtain ⟨h3a, h3b, h3c⟩ := replaceAll_splitOnPat (urlRefId old) (urlRefId new)
    (replaceAll (sqId old) (dqId new) (replaceAll (dqId old) (dqId new) content))
    (urlRefId_ne_nil old)
  exact ⟨⟨h1a, h1b, h1c⟩, ⟨h2a, h2b, h2c⟩, ⟨h3a, h3b, h3c⟩⟩

/-- A replacement reported `false` leaves the document unchanged. -/
theorem find_and_replace_icon_false_pair {content maskId frag ind out : List Char}
    (h : find_and_replace_icon content maskId frag ind = (out, false)) :
    out = content := by
  unfold find_and_replace_icon at h
  cases hs : searchLocator maskId content with
  | none =>
      rw [hs] at h
      cases h
      rfl
  | some p =>
      obtain ⟨s, l⟩ := p
      rw [hs] at h
      simp at h

/-- The changed flags of the identifier loop are the accumulators or-ed
with the per-identifier outcomes, and a document whose outcomes are all
`false` is carried through unchanged. -/
theorem processMasks_spec (svg : List Char) :
    ∀ (ids : List (List Char)) (html react : List Char) (hc rc : Bool),
      (processMasks svg ids html react hc rc).2.2.1
        = (hc || (masksTrace svg ids html react).any (fun p => !p.1 && p.2))
      ∧ (processMasks svg ids html react hc rc).2.2.2
        = (rc || (masksTrace svg ids html react).any (fun p => p.1 && p.2))
      ∧ ((masksTrace svg ids html react).any (fun p => !p.1 && p.2) = false →
          (processMasks svg ids html react hc rc).1 = html)
      ∧ ((masksTrace svg ids html react).any (fun p => p.1 && p.2) = false →
          (processMasks svg ids html react hc rc).2.1 = react) := by
  intro ids
  induction ids with
  | nil =>
      intro html react hc rc
      refine ⟨by simp [processMasks, masksTrace],
        by simp [processMasks, masksTrace],
        fun _ => rfl, fun _ => rfl⟩
  | cons m rest ih =>
      intro html react hc rc
      by_cases hm : endsReact m = true
      · cases hrep : replace_react_icon react m (prepare_icon_for_react svg m) with
        | mk react2 replaced =>
            have hPM : processMasks svg (m :: rest) html react hc rc
                = processMasks svg rest html react2 hc (rc || replaced) := by
              simp [processMasks, hm, hrep]
            have hMT : masksTrace svg (m :: rest) html react
                = (true, replaced) :: masksTrace svg rest html react2 := by
              simp [masksTrace, hm, hrep]
            obtain ⟨i1, i2, i3, i4⟩ := ih html react2 hc (rc || replaced)
            refine ⟨?_, ?_, ?_, ?_⟩
            · rw [hPM, hMT, i1]
              simp
            · rw [hPM, hMT, i2]
              simp [Bool.or_assoc]
            · intro hno
              rw [hMT] at hno
              simp only [List.any_cons] at hno
              rw [hPM]
              apply i3
              simpa using hno
            · intro hno
              rw [hMT] at hno
              simp only [List.any_cons, Bool.or_eq_false_iff] at hno
              obtain ⟨hrep0, hany⟩ := hno
              have hr0 : replaced = false := by simpa using hrep0
              subst hr0
              have hreq : react2 = react := by
                have hrep' : find_and_replace_icon react m
                    (prepare_icon_for_react svg m) (List.replicate 10 ' ')
                    = (react2, false) := by
                  unfold replace_react_icon at hrep
                  exact hrep
                exact find_and_replace_icon_false_pair hrep'
              rw [hPM, i4 hany]
              exact hreq
      · have hm' : endsReact m = false := Bool.eq_false_iff.mpr hm
        cases hrep : replace_html_icon html m (prepare_icon_for_html svg m) with
        | mk html2 replaced =>
            have hPM : processMasks svg (m :: rest) html react hc rc
                = processMasks svg rest html2 react (hc || replaced) rc := by
              simp [processMasks, hm', hrep]
            have hMT : masksTrace svg (m :: rest) html react
                = (false, replaced) :: masksTrace svg rest html2 react := by
              simp [masksTrace, hm', hrep]
            obtain ⟨i1, i2, i3, i4⟩ := ih html2 react (hc || replaced) rc
            refine ⟨?_, ?_, ?_, ?_⟩
            · rw [hPM, hMT, i1]
              simp [Bool.or_assoc]
            · rw [hPM, hMT, i2]
              simp
            · intro hno
              rw [hMT] at hno
              simp only [List.any_cons, Bool.or_eq_false_iff] at hno
              obtain ⟨hrep0, hany⟩ := hno
              have hr0 : replaced = false := by simpa using hrep0
              subst hr0
              have hreq : html2 = html := by
                have hrep' : find_and_replace_icon html m
                    (prepare_icon_for_html svg m) (List.replicate 20 ' ')
                    = (html2, false) := by
                  unfold replace_html_icon at hrep
                  exact hrep
                exact find_and_replace_icon_false_pair hrep'
              rw [hPM, i3 hany]
              exact hreq
            · intro hno
              rw [hMT] at hno
              simp only [List.any_cons] at hno
              rw [hPM]
              apply i4
              simpa using hno

/-- The run-level changed flags are the disjunction of the per-identifier
outcomes targeting each document, and a document with no successful patch
is carried through the whole run unchanged. -/
theorem runJobs_spec :
    ∀ (jobs : List IconJob) (html react : List Char),
      (runJobs jobs html react).2.2.1
        = (jobsTrace jobs html react).any (fun p => !p.1 && p.2)
      ∧ (runJobs jobs html react).2.2.2
        = (jobsTrace jobs html react).any (fun p => p.1 && p.2)
      ∧ ((jobsTrace jobs html react).any (fun p => !p.1 && p.2) = false →
          (runJobs jobs html react).1 = html)
      ∧ ((jobsTrace jobs html react).any (fun p => p.1 && p.2) = false →
          (runJobs jobs html react).2.1 = react) := by
  intro jobs
  induction jobs with
  | nil =>
      intro html react
      exact ⟨by simp [runJobs, jobsTrace], by simp [runJobs, jobsTrace],
        fun _ => rfl, fun _ => rfl⟩
  | cons job rest ih =>
      intro html react
      obtain ⟨present, svg, ids⟩ := job
      by_cases hp : present = true
      · subst hp
        cases hPI : processMasks svg ids html react false false with
        | mk h1 rrest =>
            obtain ⟨r1, hc, rc⟩ := rrest
            have hproc : process_icon true svg ids html react = (h1, r1, hc, rc) := by
              simpa [process_icon] using hPI
            cases hRJ : runJobs rest h1 r1 with
            | mk h2 rrest2 =>
                obtain ⟨r2, hc2, rc2⟩ := rrest2
                have hrun : runJobs ((true, svg, ids) :: rest) html react
                    = (h2, r2, hc || hc2, rc || rc2) := by
                  simp [runJobs, hproc, hRJ]
                have htr : jobsTrace ((true, svg, ids) :: rest) html react
                    = masksTrace svg ids html react ++ jobsTrace rest h1 r1 := by
                  simp [jobsTrace, hproc]
                obtain ⟨m1, m2, m3, m4⟩ := processMasks_spec svg ids html react false false
                rw [hPI] at m1 m2 m3 m4
                simp only at m1 m2 m3 m4
                obtain ⟨j1, j2, j3, j4⟩ := ih h1 r1
                rw [hRJ] at j1 j2 j3 j4
                simp only at j1 j2 j3 j4
                refine ⟨?_, ?_, ?_, ?_⟩
                · rw [hrun, htr]
                  simp only [List.any_append]
                  rw [show hc = (masksTrace svg ids html react).any
                      (fun p => !p.1 && p.2) by simpa using m1]
                  rw [j1]
                · rw [hrun, htr]
                  simp only [List.any_append]
                  rw [show rc = (masksTrace svg ids html react).any
                      (fun p => p.1 && p.2) by simpa using m2]
                  rw [j2]
                · intro hno
                  rw [htr] at hno
                  simp only [List.any_append, Bool.or_eq_false_iff] at hno
                  obtain ⟨hnoM, hnoR⟩ := hno
                  have hh1 : h1 = html := m3 hnoM
                  rw [hrun]
                  simp only
                  rw [j3 hnoR, hh1]
                · intro hno
                  rw [htr] at hno
                  simp only [List.any_append, Bool.or_eq_false_iff] at hno
                  obtain ⟨hnoM, hnoR⟩ := hno
                  have hr1 : r1 = react := m4 hnoM
                  rw [hrun]
                  simp only
                  rw [j4 hnoR, hr1]
      · have hp' : present = false := Bool.eq_false_iff.mpr hp
        subst hp'
        have hproc : process_icon false svg ids html react
            = (html, react, false, false) := by
          simp [process_icon]
        cases hRJ : runJobs rest html react with
        | mk h2 rrest2 =>
            obtain ⟨r2, hc2, rc2⟩ := rrest2
            have hrun : runJobs ((false, svg, ids) :: rest) html react
                = (h2, r2, false || hc2, false || rc2) := by
              simp [runJobs, hproc, hRJ]
            have htr : jobsTrace ((false, svg, ids) :: rest) html react
                = jobsTrace rest html react := by
              simp [jobsTrace]
            obtain ⟨j1, j2, j3, j4⟩ := ih html react
            rw [hRJ] at j1 j2 j3 j4
            simp only at j1 j2 j3 j4
            refine ⟨?_, ?_, ?_, ?_⟩
            · rw [hrun, htr]
              simpa using j1
            · rw [hrun, htr]
              simpa using j2
            · intro hno
              rw [htr] at hno
              rw [hrun]
              simpa using j3 hno
            · intro hno
              rw [htr] at hno
              rw [hrun]
              simpa using j4 hno

/-- C6 amended: after successful validation each document is written back
exactly when at least one identifier targeting it was successfully patched
(the changed flag is the disjunction of the per-identifier patch
outcomes); when no identifier targeting a document was patched its content
is unchanged and nothing is written; the overall result is the disjunction
of the two flags.  The write decision is driven by the patch outcomes and
not by comparing content, so a successful patch producing identical bytes
is still written back. -/
theorem sync_icons_write_iff_patch (e : Env) (jobs : List IconJob)
    (html react : List Char) (hv : validate_environment e = true) :
    (sync_icons e jobs html react).2.1
        = (if (jobsTrace jobs html react).any (fun p => !p.1 && p.2)
           then some (runJobs jobs html react).1 else none)
    ∧ (sync_icons e jobs html react).2.2.1
        = (if (jobsTrace jobs html react).any (fun p => p.1 && p.2)
           then some (runJobs jobs html react).2.1 else none)
    ∧ ((jobsTrace jobs html react).any (fun p => !p.1 && p.2) = false →
        (runJobs jobs html react).1 = html
        ∧ (sync_icons e jobs html react).2.1 = none)
    ∧ ((jobsTrace jobs html react).any (fun p => p.1 && p.2) = false →
        (runJobs jobs html react).2.1 = react
        ∧ (sync_icons e jobs html react).2.2.1 = none)
    ∧ (sync_icons e jobs html react).1
        = ((jobsTrace jobs html react).any (fun p => !p.1 && p.2)
            || (jobsTrace jobs html react).any (fun p => p.1 && p.2)) := by
  obtain ⟨f1, f2, f3, f4⟩ := runJobs_spec jobs html react
  cases hRJ : runJobs jobs html react with
  | mk h rrest =>
      obtain ⟨r, hu, ru⟩ := rrest
      rw [hRJ] at f1 f2 f3 f4
      simp only at f1 f2 f3 f4
      have hsync : sync_icons e jobs html react
          = (hu || ru, if hu then some h else none, if ru then some r else none,
             FileOp.readDocs ::
               ((jobs.filter (fun j => j.1)).map (fun _ => FileOp.readIcon) ++
                 (if hu then [FileOp.writeHtmlDoc] else []) ++
                 (if ru then [FileOp.writeReactDoc] else []))) := by
        simp [sync_icons, hv, hRJ]
      refine ⟨?_, ?_, ?_, ?_, ?_⟩
      · rw [hsync]
        simp only
        rw [f1]
      · rw [hsync]
        simp only
        rw [f2]
      · intro hno
        have hu0 : hu = false := f1.trans hno
        refine ⟨f3 hno, ?_⟩
        rw [hsync]
        simp [hu0]
      · intro hno
        have ru0 : ru = false := f2.trans hno
        refine ⟨f4 hno, ?_⟩
        rw [hsync]
        simp [ru0]
      · rw [hsync]
        simp only
        rw [f1, f2]

/-- Witness: a run with no icons patches nothing and writes nothing. -/
theorem sync_icons_write_iff_patch_applied :
    (sync_icons ⟨true, true, true⟩ [] (("h").data) (("r").data)).2.1
      = (if (jobsTrace [] (("h").data) (("r").data)).any (fun p => !p.1 && p.2)
         then some (runJobs [] (("h").data) (("r").data)).1 else none) :=
  (sync_icons_write_iff_patch ⟨true, true, true⟩ [] (("h").data) (("r").data)
    (by decide)).1

set_option maxRecDepth 200000 in
/-- C6 counterexample: re-running the synchronizer on an already-synced
document finds the placeholder, "replaces" it with identical bytes,
reports the patch as successful, and writes the document back although its
content is byte-for-byte unchanged — the written value equals the original
input, so write-back does not happen "only if the content changed". -/
theorem sync_icons_writes_unchanged_content :
    sync_icons ⟨true, true, true⟩
        ((true,
          (("<svg width=\"16\" height=\"16\" fill=\"none\"><mask id=\"mask-home\">x</mask></svg>").data),
          ((("mask-home").data) :: [])) :: [])
        (("<svg width=\"16\" height=\"16\" viewBox=\"0 0 16 16\" fill=\"none\" xmlns=\"http://www.w3.org/2000/svg\">\n                        <mask id=\"mask-home\">x</mask>\n                    </svg>").data)
        []
      = (true,
         some (("<svg width=\"16\" height=\"16\" viewBox=\"0 0 16 16\" fill=\"none\" xmlns=\"http://www.w3.org/2000/svg\">\n                        <mask id=\"mask-home\">x</mask>\n                    </svg>").data),
         none,
         FileOp.readDocs :: FileOp.readIcon :: FileOp.writeHtmlDoc :: []) := by
  decide

/-- C7: if the icon directory or either document path is missing,
validation fails and the run returns failure with no reads, no writes and
no processing at all. -/
theorem sync_icons_fail_fast (e : Env) (jobs : List IconJob)
    (html react : List Char)
    (h : e.iconsDirExists = false ∨ e.htmlExists = false ∨
      e.reactExists = false) :
    validate_environment e = false
    ∧ sync_icons e jobs html react = (false, none, none, []) := by
  have hv : validate_environment e = false := by
    unfold validate_environment
    rcases h with h | h | h <;> simp [h]
  refine ⟨hv, ?_⟩
  unfold sync_icons
  rw [if_neg (by simp [hv])]

/-- Witness: a missing HTML document aborts the run with no effects. -/
theorem sync_icons_fail_fast_applied :
    sync_icons ⟨true, false, true⟩ [] (("x").data) (("y").data)
      = (false, none, none, []) :=
  (sync_icons_fail_fast ⟨true, false, true⟩ [] (("x").data) (("y").data)
    (Or.inr (Or.inl rfl))).2

end SyncIcons
